import Mathlib

/-!
Shallow embedding of `src/frontend/src/lib/languages.ts` from the
voice-noob repository: the tier capability resolver (language catalog
tables and the pure resolution functions over them).

TypeScript `Language` records become a Lean structure; the optional
`whisperCode` field becomes `Option String`.  The `PricingTierType`
union is modelled by `String` arguments (the runtime representation of
the TypeScript string-literal union), with the list of recognized tier
identifiers kept separately.  `Array.prototype.sort` with the
`localeCompare` comparator is modelled by Mathlib's stable
`List.insertionSort` ordered by `≤` on the display names; every display
name in the tables is plain ASCII, where locale-aware comparison agrees
with code-unit order.
-/

namespace VoiceNoob

structure Language where
  code : String
  name : String
  whisperCode : Option String
deriving DecidableEq

/-- Table `COMMON_LANGUAGES` from `languages.ts` (lines 18–54): languages
supported by all tiers, in source declaration order. -/
def COMMON_LANGUAGES : List Language := [
  ⟨"en-US", "English (US)", some "en"⟩,
  ⟨"en-GB", "English (UK)", some "en"⟩,
  ⟨"en-AU", "English (Australia)", some "en"⟩,
  ⟨"es-ES", "Spanish (Spain)", some "es"⟩,
  ⟨"es-MX", "Spanish (Mexico)", some "es"⟩,
  ⟨"fr-FR", "French", some "fr"⟩,
  ⟨"fr-CA", "French (Canada)", some "fr"⟩,
  ⟨"de-DE", "German", some "de"⟩,
  ⟨"it-IT", "Italian", some "it"⟩,
  ⟨"pt-BR", "Portuguese (Brazil)", some "pt"⟩,
  ⟨"pt-PT", "Portuguese (Portugal)", some "pt"⟩,
  ⟨"nl-NL", "Dutch", some "nl"⟩,
  ⟨"pl-PL", "Polish", some "pl"⟩,
  ⟨"ru-RU", "Russian", some "ru"⟩,
  ⟨"ja-JP", "Japanese", some "ja"⟩,
  ⟨"ko-KR", "Korean", some "ko"⟩,
  ⟨"zh-CN", "Chinese (Simplified)", some "zh"⟩,
  ⟨"zh-TW", "Chinese (Traditional)", some "zh"⟩,
  ⟨"hi-IN", "Hindi", some "hi"⟩,
  ⟨"tr-TR", "Turkish", some "tr"⟩,
  ⟨"vi-VN", "Vietnamese", some "vi"⟩,
  ⟨"th-TH", "Thai", some "th"⟩,
  ⟨"id-ID", "Indonesian", some "id"⟩,
  ⟨"sv-SE", "Swedish", some "sv"⟩,
  ⟨"da-DK", "Danish", some "da"⟩,
  ⟨"no-NO", "Norwegian", some "no"⟩,
  ⟨"fi-FI", "Finnish", some "fi"⟩,
  ⟨"cs-CZ", "Czech", some "cs"⟩,
  ⟨"el-GR", "Greek", some "el"⟩,
  ⟨"hu-HU", "Hungarian", some "hu"⟩,
  ⟨"ro-RO", "Romanian", some "ro"⟩,
  ⟨"uk-UA", "Ukrainian", some "uk"⟩,
  ⟨"bg-BG", "Bulgarian", some "bg"⟩,
  ⟨"sk-SK", "Slovak", some "sk"⟩,
  ⟨"ms-MY", "Malay", some "ms"⟩]

/-- Table `PREMIUM_ADDITIONAL_LANGUAGES` from `languages.ts` (lines 58–96). -/
def PREMIUM_ADDITIONAL_LANGUAGES : List Language := [
  ⟨"ar-SA", "Arabic", some "ar"⟩,
  ⟨"he-IL", "Hebrew", some "he"⟩,
  ⟨"fa-IR", "Persian (Farsi)", some "fa"⟩,
  ⟨"ur-PK", "Urdu", some "ur"⟩,
  ⟨"bn-BD", "Bengali", some "bn"⟩,
  ⟨"ta-IN", "Tamil", some "ta"⟩,
  ⟨"te-IN", "Telugu", some "te"⟩,
  ⟨"mr-IN", "Marathi", some "mr"⟩,
  ⟨"gu-IN", "Gujarati", some "gu"⟩,
  ⟨"kn-IN", "Kannada", some "kn"⟩,
  ⟨"ml-IN", "Malayalam", some "ml"⟩,
  ⟨"ne-NP", "Nepali", some "ne"⟩,
  ⟨"si-LK", "Sinhala", some "si"⟩,
  ⟨"tl-PH", "Tagalog", some "tl"⟩,
  ⟨"sw-KE", "Swahili", some "sw"⟩,
  ⟨"af-ZA", "Afrikaans", some "af"⟩,
  ⟨"hr-HR", "Croatian", some "hr"⟩,
  ⟨"sr-RS", "Serbian", some "sr"⟩,
  ⟨"sl-SI", "Slovenian", some "sl"⟩,
  ⟨"lt-LT", "Lithuanian", some "lt"⟩,
  ⟨"lv-LV", "Latvian", some "lv"⟩,
  ⟨"et-EE", "Estonian", some "et"⟩,
  ⟨"is-IS", "Icelandic", some "is"⟩,
  ⟨"mk-MK", "Macedonian", some "mk"⟩,
  ⟨"bs-BA", "Bosnian", some "bs"⟩,
  ⟨"sq-AL", "Albanian", some "sq"⟩,
  ⟨"az-AZ", "Azerbaijani", some "az"⟩,
  ⟨"kk-KZ", "Kazakh", some "kk"⟩,
  ⟨"hy-AM", "Armenian", some "hy"⟩,
  ⟨"ka-GE", "Georgian", some "ka"⟩,
  ⟨"be-BY", "Belarusian", some "be"⟩,
  ⟨"gl-ES", "Galician", some "gl"⟩,
  ⟨"ca-ES", "Catalan", some "ca"⟩,
  ⟨"eu-ES", "Basque", some "eu"⟩,
  ⟨"cy-GB", "Welsh", some "cy"⟩,
  ⟨"mt-MT", "Maltese", some "mt"⟩,
  ⟨"mi-NZ", "Maori", some "mi"⟩]

/-- Table `BALANCED_ADDITIONAL_LANGUAGES` from `languages.ts` (lines 100–122). -/
def BALANCED_ADDITIONAL_LANGUAGES : List Language := [
  ⟨"ar-SA", "Arabic", some "ar"⟩,
  ⟨"he-IL", "Hebrew", some "he"⟩,
  ⟨"fa-IR", "Persian (Farsi)", some "fa"⟩,
  ⟨"bn-BD", "Bengali", some "bn"⟩,
  ⟨"ta-IN", "Tamil", some "ta"⟩,
  ⟨"te-IN", "Telugu", some "te"⟩,
  ⟨"mr-IN", "Marathi", some "mr"⟩,
  ⟨"gu-IN", "Gujarati", some "gu"⟩,
  ⟨"kn-IN", "Kannada", some "kn"⟩,
  ⟨"ml-IN", "Malayalam", some "ml"⟩,
  ⟨"tl-PH", "Tagalog", some "tl"⟩,
  ⟨"sw-KE", "Swahili", some "sw"⟩,
  ⟨"af-ZA", "Afrikaans", some "af"⟩,
  ⟨"hr-HR", "Croatian", some "hr"⟩,
  ⟨"sr-RS", "Serbian", some "sr"⟩,
  ⟨"sl-SI", "Slovenian", some "sl"⟩,
  ⟨"lt-LT", "Lithuanian", some "lt"⟩,
  ⟨"lv-LV", "Latvian", some "lv"⟩,
  ⟨"et-EE", "Estonian", some "et"⟩,
  ⟨"is-IS", "Icelandic", some "is"⟩,
  ⟨"ca-ES", "Catalan", some "ca"⟩]

/-- Lexicographic comparison of character lists by code point: the
behaviour of `localeCompare` on the plain-ASCII display names of the
catalog. -/
def charListLe : List Char → List Char → Bool
  | [], _ => true
  | _ :: _, [] => false
  | a :: as, b :: bs =>
    if a.toNat < b.toNat then true
    else if b.toNat < a.toNat then false
    else charListLe as bs

theorem charListLe_total : ∀ a b : List Char,
    charListLe a b = true ∨ charListLe b a = true
  | [], _ => Or.inl rfl
  | _ :: _, [] => Or.inr rfl
  | a :: as, b :: bs => by
    simp only [charListLe]
    rcases Nat.lt_trichotomy a.toNat b.toNat with h | h | h
    · left; simp [h]
    · have h1 : ¬ a.toNat < b.toNat := by omega
      have h2 : ¬ b.toNat < a.toNat := by omega
      simpa [h1, h2] using charListLe_total as bs
    · right; simp [h]

theorem charListLe_trans : ∀ a b c : List Char,
    charListLe a b = true → charListLe b c = true → charListLe a c = true
  | [], _, _, _, _ => rfl
  | _ :: _, [], _, h, _ => by simp [charListLe] at h
  | _ :: _, _ :: _, [], _, h => by simp [charListLe] at h
  | a :: as, b :: bs, c :: cs, h1, h2 => by
    simp only [charListLe] at h1 h2 ⊢
    split_ifs at h1 h2 ⊢ <;> first
      | rfl
      | omega
      | (exact charListLe_trans as bs cs h1 h2)

/-- The comparator used by `getLanguagesForTier`: ascending by display
name (`a.name.localeCompare(b.name)`; all names are ASCII, where
locale-aware comparison is code-point comparison). -/
def nameLe (a b : Language) : Prop := charListLe a.name.data b.name.data = true

instance : DecidableRel nameLe :=
  fun a b => inferInstanceAs (Decidable (charListLe a.name.data b.name.data = true))

instance : IsTotal Language nameLe :=
  ⟨fun a b => charListLe_total a.name.data b.name.data⟩

instance : IsTrans Language nameLe :=
  ⟨fun _ _ _ h h' => charListLe_trans _ _ _ h h'⟩

/-- The members of the `PricingTierType` string-literal union
(`languages.ts` line 124). -/
def pricingTiers : List String := ["budget", "balanced", "premium-mini", "premium"]

/-- Function `getLanguagesForTier` from `languages.ts` (lines 129–151): the
`switch` on the tier string, each recognized branch sorting a copy of
the merged tables by display name, the `default` branch returning
`COMMON_LANGUAGES` unsorted.  The `"premium-mini"` case falls through
to `"premium"`. -/
def getLanguagesForTier (tier : String) : List Language :=
  if tier = "budget" then
    List.insertionSort nameLe COMMON_LANGUAGES
  else if tier = "balanced" then
    List.insertionSort nameLe (COMMON_LANGUAGES ++ BALANCED_ADDITIONAL_LANGUAGES)
  else if tier = "premium-mini" ∨ tier = "premium" then
    List.insertionSort nameLe (COMMON_LANGUAGES ++ PREMIUM_ADDITIONAL_LANGUAGES)
  else
    COMMON_LANGUAGES

/-- Function `isLanguageValidForTier` from `languages.ts` (lines 156–159). -/
def isLanguageValidForTier (languageCode : String) (tier : String) : Bool :=
  (getLanguagesForTier tier).any (fun lang => lang.code = languageCode)

/-- Function `getWhisperCode` from `languages.ts` (lines 165–169): scans only
`COMMON_LANGUAGES ++ PREMIUM_ADDITIONAL_LANGUAGES`; the optional-chain
`language?.whisperCode` becomes `Option.bind`. -/
def getWhisperCode (bcp47Code : String) : Option String :=
  ((COMMON_LANGUAGES ++ PREMIUM_ADDITIONAL_LANGUAGES).find?
    (fun lang => lang.code = bcp47Code)).bind (fun lang => lang.whisperCode)

/-- Function `getFallbackLanguage` from `languages.ts` (lines 175–180). -/
def getFallbackLanguage (currentLanguage : String) (newTier : String) : String :=
  if isLanguageValidForTier currentLanguage newTier then currentLanguage
  else "en-US"

/-- Concatenation of every capability table in the module: the full
option catalog (entries shared between tables appear twice; only codes
and field values matter for the statements below). -/
def tierTables : List Language :=
  COMMON_LANGUAGES ++ PREMIUM_ADDITIONAL_LANGUAGES ++ BALANCED_ADDITIONAL_LANGUAGES

/-- Codes of the universal subset. -/
def commonCodes : List String := COMMON_LANGUAGES.map (fun l => l.code)

/-- Codes of the full option catalog (universal subset plus every
tier-additive subset). -/
def catalogCodes : List String := tierTables.map (fun l => l.code)

theorem getLanguagesForTier_cases (t : String) :
    getLanguagesForTier t = List.insertionSort nameLe COMMON_LANGUAGES ∨
    getLanguagesForTier t =
      List.insertionSort nameLe (COMMON_LANGUAGES ++ BALANCED_ADDITIONAL_LANGUAGES) ∨
    getLanguagesForTier t =
      List.insertionSort nameLe (COMMON_LANGUAGES ++ PREMIUM_ADDITIONAL_LANGUAGES) ∨
    getLanguagesForTier t = COMMON_LANGUAGES := by
  unfold getLanguagesForTier
  split_ifs
  · exact Or.inl rfl
  · exact Or.inr (Or.inl rfl)
  · exact Or.inr (Or.inr (Or.inl rfl))
  · exact Or.inr (Or.inr (Or.inr rfl))

theorem isLanguageValidForTier_iff (c t : String) :
    isLanguageValidForTier c t = true ↔
      c ∈ (getLanguagesForTier t).map (fun l => l.code) := by
  unfold isLanguageValidForTier
  rw [List.any_eq_true]
  constructor
  · rintro ⟨l, hl, he⟩
    exact List.mem_map.2 ⟨l, hl, by simpa using he⟩
  · intro h
    rcases List.mem_map.1 h with ⟨l, hl, he⟩
    exact ⟨l, hl, by simp [he]⟩

theorem codes_subset_catalog (t c : String)
    (hc : c ∈ (getLanguagesForTier t).map (fun l => l.code)) :
    c ∈ catalogCodes := by
  rcases getLanguagesForTier_cases t with h | h | h | h <;> rw [h] at hc
  · rw [((List.perm_insertionSort nameLe _).map _).mem_iff] at hc
    have hall : ∀ x ∈ COMMON_LANGUAGES.map (fun l => l.code), x ∈ catalogCodes := by decide
    exact hall c hc
  · rw [((List.perm_insertionSort nameLe _).map _).mem_iff] at hc
    have hall : ∀ x ∈ (COMMON_LANGUAGES ++ BALANCED_ADDITIONAL_LANGUAGES).map (fun l => l.code),
        x ∈ catalogCodes := by decide
    exact hall c hc
  · rw [((List.perm_insertionSort nameLe _).map _).mem_iff] at hc
    have hall : ∀ x ∈ (COMMON_LANGUAGES ++ PREMIUM_ADDITIONAL_LANGUAGES).map (fun l => l.code),
        x ∈ catalogCodes := by decide
    exact hall c hc
  · have hall : ∀ x ∈ COMMON_LANGUAGES.map (fun l => l.code), x ∈ catalogCodes := by decide
    exact hall c hc

theorem enUS_valid (t : String) : isLanguageValidForTier "en-US" t = true := by
  rw [isLanguageValidForTier_iff]
  rcases getLanguagesForTier_cases t with h | h | h | h <;> rw [h]
  · rw [((List.perm_insertionSort nameLe _).map _).mem_iff]; decide
  · rw [((List.perm_insertionSort nameLe _).map _).mem_iff]; decide
  · rw [((List.perm_insertionSort nameLe _).map _).mem_iff]; decide
  · decide

/-- C1: for every option code `x` and tier `t`, `getFallbackLanguage x t`
returns `x` unchanged whenever `isLanguageValidForTier x t` holds, and
otherwise returns the single fixed default code `"en-US"`, which is a
member of the universal subset and valid for every tier. -/
theorem getFallbackLanguage_spec (x t : String) :
    (isLanguageValidForTier x t = true → getFallbackLanguage x t = x) ∧
    (isLanguageValidForTier x t = false → getFallbackLanguage x t = "en-US") ∧
    "en-US" ∈ commonCodes ∧
    isLanguageValidForTier "en-US" t = true := by
  refine ⟨fun h => ?_, fun h => ?_, by decide, enUS_valid t⟩
  · simp [getFallbackLanguage, h]
  · simp [getFallbackLanguage, h]

theorem getFallbackLanguage_spec_witness :
    getFallbackLanguage "en-US" "budget" = "en-US" ∧
    getFallbackLanguage "fa-IR" "budget" = "en-US" := by
  constructor
  · exact (getFallbackLanguage_spec "en-US" "budget").1 (by decide)
  · exact (getFallbackLanguage_spec "fa-IR" "budget").2.1 (by decide)

/-- C2: every tier's option-code set is a superset of the universal
subset (for every tier string, recognized or not), and the intersection
over the tier enumeration (`pricingTiers`, the members of the
`PricingTierType` union) of the option-code sets is exactly the
universal subset: a code belongs to every enumerated tier's options
precisely when it is a `COMMON_LANGUAGES` code. -/
theorem options_intersection_eq_common (c : String) :
    (c ∈ commonCodes → ∀ t : String, c ∈ (getLanguagesForTier t).map (fun l => l.code)) ∧
    ((∀ t ∈ pricingTiers, c ∈ (getLanguagesForTier t).map (fun l => l.code)) →
      c ∈ commonCodes) := by
  constructor
  · intro hc t
    rcases getLanguagesForTier_cases t with h | h | h | h <;> rw [h]
    · rw [((List.perm_insertionSort nameLe _).map _).mem_iff]
      have hall : ∀ x ∈ commonCodes, x ∈ COMMON_LANGUAGES.map (fun l => l.code) := by decide
      exact hall c hc
    · rw [((List.perm_insertionSort nameLe _).map _).mem_iff]
      have hall : ∀ x ∈ commonCodes,
          x ∈ (COMMON_LANGUAGES ++ BALANCED_ADDITIONAL_LANGUAGES).map (fun l => l.code) := by
        decide
      exact hall c hc
    · rw [((List.perm_insertionSort nameLe _).map _).mem_iff]
      have hall : ∀ x ∈ commonCodes,
          x ∈ (COMMON_LANGUAGES ++ PREMIUM_ADDITIONAL_LANGUAGES).map (fun l => l.code) := by
        decide
      exact hall c hc
    · have hall : ∀ x ∈ commonCodes, x ∈ COMMON_LANGUAGES.map (fun l => l.code) := by decide
      exact hall c hc
  · intro h
    have hb := h "budget" (by decide)
    have he : getLanguagesForTier "budget" = List.insertionSort nameLe COMMON_LANGUAGES := rfl
    rw [he, ((List.perm_insertionSort nameLe _).map _).mem_iff] at hb
    exact hb

theorem options_intersection_eq_common_witness :
    "en-US" ∈ (getLanguagesForTier "budget").map (fun l => l.code) ∧
    "en-US" ∈ commonCodes := by
  have h1 := (options_intersection_eq_common "en-US").1 (by decide)
  exact ⟨h1 "budget", (options_intersection_eq_common "en-US").2 (fun t _ => h1 t)⟩

/-- C3: for every tier string `t`, the sequence returned by
`getLanguagesForTier t` contains no two entries with the same code. -/
theorem options_nodup (t : String) :
    ((getLanguagesForTier t).map (fun l => l.code)).Nodup := by
  rcases getLanguagesForTier_cases t with h | h | h | h <;> rw [h]
  · rw [((List.perm_insertionSort nameLe _).map _).nodup_iff]; decide
  · rw [((List.perm_insertionSort nameLe _).map _).nodup_iff]; decide
  · rw [((List.perm_insertionSort nameLe _).map _).nodup_iff]; decide
  · decide

/-- C4 counterexample: for an unrecognized tier identifier the claim
fails — `getLanguagesForTier "enterprise"` returns `COMMON_LANGUAGES` in
declaration order, which is not sorted ascending by display name (its
first entries are "English (US)", "English (UK)", "English
(Australia)"). -/
theorem options_sorted_counterexample :
    ¬ List.Sorted nameLe (getLanguagesForTier "enterprise") := by decide

/-- C4 amended: for every recognized tier (a member of the
`PricingTierType` union) the sequence returned by `getLanguagesForTier`
is sorted ascending by display name; for an unrecognized tier the
returned list is the universal subset in declaration order, which is
not sorted by display name. -/
theorem options_sorted_recognized (t : String) (ht : t ∈ pricingTiers) :
    List.Sorted nameLe (getLanguagesForTier t) := by
  have hcase : t = "budget" ∨ t = "balanced" ∨ t = "premium-mini" ∨ t = "premium" := by
    simpa [pricingTiers] using ht
  rcases hcase with rfl | rfl | rfl | rfl
  · have he : getLanguagesForTier "budget" = List.insertionSort nameLe COMMON_LANGUAGES := rfl
    rw [he]; exact List.sorted_insertionSort nameLe _
  · have he : getLanguagesForTier "balanced" =
        List.insertionSort nameLe (COMMON_LANGUAGES ++ BALANCED_ADDITIONAL_LANGUAGES) := rfl
    rw [he]; exact List.sorted_insertionSort nameLe _
  · have he : getLanguagesForTier "premium-mini" =
        List.insertionSort nameLe (COMMON_LANGUAGES ++ PREMIUM_ADDITIONAL_LANGUAGES) := rfl
    rw [he]; exact List.sorted_insertionSort nameLe _
  · have he : getLanguagesForTier "premium" =
        List.insertionSort nameLe (COMMON_LANGUAGES ++ PREMIUM_ADDITIONAL_LANGUAGES) := rfl
    rw [he]; exact List.sorted_insertionSort nameLe _

theorem options_sorted_recognized_witness :
    List.Sorted nameLe (getLanguagesForTier "premium") :=
  options_sorted_recognized "premium" (by decide)

/-- C5: the resolver functions are total: an unrecognized tier makes
`getLanguagesForTier` return the universal subset (never failing), and
an option code outside the full catalog makes `isLanguageValidForTier`
return `false` for every tier. -/
theorem resolver_totality :
    (∀ t : String, t ∉ pricingTiers → getLanguagesForTier t = COMMON_LANGUAGES) ∧
    (∀ c : String, c ∉ catalogCodes → ∀ t : String, isLanguageValidForTier c t = false) := by
  constructor
  · intro t ht
    simp only [pricingTiers, List.mem_cons, List.not_mem_nil, or_false, not_or] at ht
    obtain ⟨h1, h2, h3, h4⟩ := ht
    unfold getLanguagesForTier
    rw [if_neg h1, if_neg h2, if_neg (fun h => h.elim h3 h4)]
  · intro c hc t
    cases hv : isLanguageValidForTier c t
    · rfl
    · exact absurd (codes_subset_catalog t c ((isLanguageValidForTier_iff c t).1 hv)) hc

theorem resolver_totality_witness :
    getLanguagesForTier "enterprise" = COMMON_LANGUAGES ∧
    isLanguageValidForTier "xx-XX" "budget" = false :=
  ⟨resolver_totality.1 "enterprise" (by decide),
   resolver_totality.2 "xx-XX" (by decide) "budget"⟩

/-- C6: `getWhisperCode` returns the auxiliary (Whisper) code of an
option whenever some tier's capability table defines one for that code,
and returns `none` when no tier's table has an entry for the code. -/
theorem getWhisperCode_spec :
    (∀ l ∈ tierTables, getWhisperCode l.code = l.whisperCode) ∧
    (∀ c : String, (∀ l ∈ tierTables, l.code ≠ c) → getWhisperCode c = none) := by
  constructor
  · decide
  · intro c h
    unfold getWhisperCode
    have hnone : (COMMON_LANGUAGES ++ PREMIUM_ADDITIONAL_LANGUAGES).find?
        (fun lang => lang.code = c) = none := by
      rw [List.find?_eq_none]
      intro x hx
      simpa using h x (List.mem_append_left _ hx)
    rw [hnone]
    rfl

theorem getWhisperCode_spec_witness :
    getWhisperCode "ar-SA" = some "ar" ∧ getWhisperCode "zz-ZZ" = none := by
  constructor
  · exact getWhisperCode_spec.1 ⟨"ar-SA", "Arabic", some "ar"⟩ (by decide)
  · exact getWhisperCode_spec.2 "zz-ZZ" (by decide)

/-- C7: `getFallbackLanguage` is idempotent: applying it twice with the
same tier gives the same result as applying it once. -/
theorem getFallbackLanguage_idempotent (x t : String) :
    getFallbackLanguage (getFallbackLanguage x t) t = getFallbackLanguage x t := by
  cases hv : isLanguageValidForTier x t
  · have hx : getFallbackLanguage x t = "en-US" := by simp [getFallbackLanguage, hv]
    rw [hx]
    simp [getFallbackLanguage]
  · simp [getFallbackLanguage, hv]

/-- C8: for the "premium" tier, every option code in the full catalog
(universal subset plus all tier-additive subsets, the balanced-only
additions included) is valid, and `getFallbackLanguage` returns it
unchanged. -/
theorem premium_accepts_catalog (c : String) (hc : c ∈ catalogCodes) :
    isLanguageValidForTier c "premium" = true ∧ getFallbackLanguage c "premium" = c := by
  have hv : isLanguageValidForTier c "premium" = true := by
    rw [isLanguageValidForTier_iff]
    have he : getLanguagesForTier "premium" =
        List.insertionSort nameLe (COMMON_LANGUAGES ++ PREMIUM_ADDITIONAL_LANGUAGES) := rfl
    rw [he, ((List.perm_insertionSort nameLe _).map _).mem_iff]
    have hall : ∀ x ∈ catalogCodes,
        x ∈ (COMMON_LANGUAGES ++ PREMIUM_ADDITIONAL_LANGUAGES).map (fun l => l.code) := by
      decide
    exact hall c hc
  exact ⟨hv, by simp [getFallbackLanguage, hv]⟩

theorem premium_accepts_catalog_witness :
    isLanguageValidForTier "ur-PK" "premium" = true ∧
    getFallbackLanguage "ur-PK" "premium" = "ur-PK" :=
  premium_accepts_catalog "ur-PK" (by decide)

/-- C9: the tier union contains a fourth member "premium-mini", and it
is capability-equivalent to "premium": `getLanguagesForTier` returns the
identical sequence for the two tiers, so `isLanguageValidForTier` and
`getFallbackLanguage` agree on them for every option code. -/
theorem premiumMini_equiv_premium :
    "premium-mini" ∈ pricingTiers ∧
    getLanguagesForTier "premium-mini" = getLanguagesForTier "premium" ∧
    (∀ c : String,
      isLanguageValidForTier c "premium-mini" = isLanguageValidForTier c "premium") ∧
    (∀ c : String,
      getFallbackLanguage c "premium-mini" = getFallbackLanguage c "premium") := by
  have hlist : getLanguagesForTier "premium-mini" = getLanguagesForTier "premium" := rfl
  have hvalid : ∀ c : String,
      isLanguageValidForTier c "premium-mini" = isLanguageValidForTier c "premium" := by
    intro c
    unfold isLanguageValidForTier
    rw [hlist]
  refine ⟨by decide, hlist, hvalid, fun c => ?_⟩
  unfold getFallbackLanguage
  rw [hvalid c]

/-- C10: every option code appearing in `getLanguagesForTier t` for any
tier string `t` has a defined auxiliary code: `getWhisperCode` returns
`some` value for it. -/
theorem options_whisperCode_isSome (t c : String)
    (hc : c ∈ (getLanguagesForTier t).map (fun l => l.code)) :
    (getWhisperCode c).isSome = true := by
  have h := codes_subset_catalog t c hc
  have hall : ∀ x ∈ catalogCodes, (getWhisperCode x).isSome = true := by decide
  exact hall c h

theorem options_whisperCode_isSome_witness :
    (getWhisperCode "ca-ES").isSome = true :=
  options_whisperCode_isSome "balanced" "ca-ES" (by decide)

end VoiceNoob
